import Mathlib

/-!
# Verification of the GeminiKeyManager key-rotation rate limiter

A shallow embedding of the credential-rotation rate limiter
(`GeminiKeyManager.getAvailableKey` and the module-level `KEYS` pool).
The Redis store is modelled as a key/value map `String → Nat` together with
an explicit trace of store operations; store failures are injected by a
schedule `fail : Nat → Bool` indexed by the number of store calls already
made (an awaited Redis call that rejects aborts the whole attempt, which we
model by returning a `storeUnavailable` result and leaving the state as it
was before the failing call).
-/

/-- Per-minute quota, `MAX_REQUESTS_PER_MINUTE` in the source. -/
def MAX_REQUESTS_PER_MINUTE : Nat := 3

/-- The Redis key of the shared rotation cursor. -/
def cursorKey : String := "gemini:global_request_counter"

/-- The components of a JavaScript `Date` that the limiter reads
(`getFullYear`, `getMonth` (0-based), `getDate`, `getHours`, `getMinutes`). -/
structure JSDate where
  year : Nat
  month : Nat
  date : Nat
  hours : Nat
  minutes : Nat
deriving DecidableEq

/-- The window identifier string built in the source by the template literal
`${year}-${month}-${date}:${hours}:${minutes}`. -/
def currentMinute (now : JSDate) : String :=
  Nat.repr now.year ++ "-" ++ Nat.repr now.month ++ "-" ++ Nat.repr now.date ++
    ":" ++ Nat.repr now.hours ++ ":" ++ Nat.repr now.minutes

/-- The per-credential per-window counter key,
`gemini:usage:${index}:${currentMinute}` in the source. -/
def keyUsageKey (index : Nat) (minute : String) : String :=
  "gemini:usage:" ++ Nat.repr index ++ ":" ++ minute

/-- A store operation, as recorded in the call trace. -/
inductive StoreOp where
  | incr : String → StoreOp
  | expire : String → Nat → StoreOp
deriving DecidableEq

/-- The state of the external store together with the trace of operations
performed on it so far. -/
structure StoreState where
  kv : String → Nat
  calls : List StoreOp

/-- The error outcomes of an acquisition attempt: empty pool, a rejected
store call, or all candidates over quota. -/
inductive KMError where
  | misconfigured
  | storeUnavailable
  | exhausted
deriving DecidableEq

/-- Pointwise update of the key/value map. -/
def setKv (kv : String → Nat) (k : String) (v : Nat) : String → Nat :=
  fun k2 => if k2 = k then v else kv k2

/-- Effect of a successful `INCR key` on the store state. -/
def afterIncr (s : StoreState) (u : String) : StoreState :=
  ⟨setKv s.kv u (s.kv u + 1), s.calls ++ [StoreOp.incr u]⟩

/-- Effect of a successful `EXPIRE key 120` on the store state. -/
def afterExpire (s : StoreState) (u : String) : StoreState :=
  ⟨s.kv, s.calls ++ [StoreOp.expire u 120]⟩

/-- The usage-counter key examined for loop counter `i`:
`keyUsageKey ((startIndex + i) % KEYS.length) currentMinute`. -/
def candKey (keys : List String) (minute : String) (startIndex i : Nat) : String :=
  keyUsageKey ((startIndex + i) % keys.length) minute

/-- The candidate loop of `getAvailableKey`: for each loop counter `i` in
`idxs`, increment the candidate's usage counter (`redis.incr`), set a
120-second expiry if the counter just became 1, accept the candidate if the
post-increment value is at most the quota, otherwise move on; if the list is
exhausted, fail with `exhausted`.  A scheduled store failure aborts the
attempt with `storeUnavailable`. -/
def examine (fail : Nat → Bool) (keys : List String) (minute : String) (startIndex : Nat) :
    List Nat → StoreState → Except KMError String × StoreState
  | [], s => (Except.error KMError.exhausted, s)
  | i :: rest, s =>
    if fail s.calls.length then
      (Except.error KMError.storeUnavailable, s)
    else if s.kv (candKey keys minute startIndex i) + 1 = 1 then
      if fail (afterIncr s (candKey keys minute startIndex i)).calls.length then
        (Except.error KMError.storeUnavailable, afterIncr s (candKey keys minute startIndex i))
      else if s.kv (candKey keys minute startIndex i) + 1 ≤ MAX_REQUESTS_PER_MINUTE then
        (Except.ok (keys.getD ((startIndex + i) % keys.length) ""),
          afterExpire (afterIncr s (candKey keys minute startIndex i))
            (candKey keys minute startIndex i))
      else
        examine fail keys minute startIndex rest
          (afterExpire (afterIncr s (candKey keys minute startIndex i))
            (candKey keys minute startIndex i))
    else if s.kv (candKey keys minute startIndex i) + 1 ≤ MAX_REQUESTS_PER_MINUTE then
      (Except.ok (keys.getD ((startIndex + i) % keys.length) ""),
        afterIncr s (candKey keys minute startIndex i))
    else
      examine fail keys minute startIndex rest
        (afterIncr s (candKey keys minute startIndex i))

/-- `GeminiKeyManager.getAvailableKey`: reject an empty pool, atomically
increment the shared rotation cursor, compute the starting offset, then run
the candidate loop over loop counters `0, …, N-1`. -/
def getAvailableKey (fail : Nat → Bool) (keys : List String) (now : JSDate)
    (s : StoreState) : Except KMError String × StoreState :=
  if keys.length = 0 then (Except.error KMError.misconfigured, s)
  else if fail s.calls.length then (Except.error KMError.storeUnavailable, s)
  else
    examine fail keys (currentMinute now) ((s.kv cursorKey + 1) % keys.length)
      (List.range keys.length) (afterIncr s cursorKey)

/-- The fault-free store schedule. -/
def noFail : Nat → Bool := fun _ => false

/-- The module-level pool construction: for `i` in `1..10`, read
`GOOGLE_API_KEY${i}` from the environment and push it when it is truthy
(present and not the empty string). -/
def KEYS (env : String → Option String) : List String :=
  (List.range' 1 10).filterMap fun i =>
    match env ("GOOGLE_API_KEY" ++ Nat.repr i) with
    | some k => if k = "" then none else some k
    | none => none

/-- Modelled from the spec (for comparison with `KEYS`): the pool built by
"reading only the environment entries GOOGLE_API_KEY1 through
GOOGLE_API_KEY10 in index order, skipping absent entries". -/
def KEYS_spec (env : String → Option String) : List String :=
  (List.range' 1 10).filterMap fun i => env ("GOOGLE_API_KEY" ++ Nat.repr i)

/-- `n` fault-free sequential calls to `getAvailableKey`, threading the store
state and collecting the results in order. -/
def runSeq (keys : List String) (now : JSDate) : Nat → StoreState → List (Except KMError String) × StoreState
  | 0, s => ([], s)
  | n + 1, s =>
    ((getAvailableKey noFail keys now s).1 ::
        (runSeq keys now n (getAvailableKey noFail keys now s).2).1,
      (runSeq keys now n (getAvailableKey noFail keys now s).2).2)

/-- The keys of the `INCR` operations in a trace, in order. -/
def incrKeys (ops : List StoreOp) : List String :=
  ops.filterMap fun op =>
    match op with
    | StoreOp.incr k => some k
    | StoreOp.expire _ _ => none

/-- The `EXPIRE` operations in a trace, in order, as (key, seconds) pairs. -/
def expireOps (ops : List StoreOp) : List (String × Nat) :=
  ops.filterMap fun op =>
    match op with
    | StoreOp.incr _ => none
    | StoreOp.expire k n => some (k, n)

/-- The trace of store operations generated by a fault-free examination of
candidate usage keys `us`, starting from counter values `kv`: one `INCR`
per candidate and one `EXPIRE _ 120` for each candidate whose counter was
previously absent (value 0). -/
def examTrace (kv : String → Nat) : List String → List StoreOp
  | [] => []
  | u :: us =>
    StoreOp.incr u :: ((if kv u = 0 then [StoreOp.expire u 120] else []) ++ examTrace kv us)

deriving instance DecidableEq for Except

/-- Combined effect on the store of examining one candidate with usage key
`u` without store failure: the increment, then the expiry when the counter
just became 1. -/
def afterCand (s : StoreState) (u : String) : StoreState :=
  if s.kv u + 1 = 1 then afterExpire (afterIncr s u) u else afterIncr s u

/-- The numeric value of a digit character. -/
def chVal (c : Char) : Nat := c.toNat - 48

/-- The number denoted by a list of digit characters (most significant
first). -/
def valOf (l : List Char) : Nat := l.foldl (fun a c => 10 * a + chVal c) 0

/-- The pool of the spec's concrete scenario. -/
def scenarioPool : List String := ["A", "B", "C"]

/-- A fixed wall-clock minute for concrete runs. -/
def scenarioDate : JSDate := ⟨2024, 0, 1, 10, 0⟩

/-- Initial store for the concrete scenario: the cursor holds 2, so the
first call's cursor increment yields 3 and a starting offset of 0; every
counter is absent. -/
def scenarioStore : StoreState := ⟨fun k => if k = cursorKey then 2 else 0, []⟩

/-- A store in which the single credential of a one-credential pool already
has its scenario-window counter at quota, and no calls were made yet. -/
def satStore : StoreState :=
  ⟨fun k => if k = keyUsageKey 0 (currentMinute scenarioDate) then 3 else 0, []⟩

/-- An environment whose only entry is `GOOGLE_API_KEY1`, set present but
empty. -/
def emptyKeyEnv : String → Option String :=
  fun name => if name = "GOOGLE_API_KEY1" then some "" else none

/-- Modelled from the amended claim: the pool built by reading the entries
GOOGLE_API_KEY1 through GOOGLE_API_KEY10 in index order, skipping entries
that are absent or empty. -/
def KEYS_spec_amended (env : String → Option String) : List String :=
  (List.range' 1 10).filterMap fun i =>
    (env ("GOOGLE_API_KEY" ++ Nat.repr i)).bind fun k => if k = "" then none else some k

/-- An environment with a single credential at index 2. -/
def envA : String → Option String :=
  fun name => if name = "GOOGLE_API_KEY2" then some "X" else none

/-- The same environment as `envA` except for an extra entry at index 11,
which the loader never reads. -/
def envAplus11 : String → Option String :=
  fun name =>
    if name = "GOOGLE_API_KEY2" then some "X"
    else if name = "GOOGLE_API_KEY11" then some "Y" else none

/-! ## Decimal representation facts

`currentMinute` and `keyUsageKey` interpolate numbers via `Nat.repr`; the
window-identifier and counter-key properties need that `Nat.repr` produces
digit-only strings and is injective. -/

theorem digitChar_isDigit (m : Nat) (h : m < 10) : (Nat.digitChar m).isDigit = true := by
  interval_cases m <;> decide

theorem chVal_digitChar (m : Nat) (h : m < 10) : chVal (Nat.digitChar m) = m := by
  interval_cases m <;> decide

theorem toDigitsCore_append (f : Nat) :
    ∀ (n : Nat) (acc : List Char),
      Nat.toDigitsCore 10 f n acc = Nat.toDigitsCore 10 f n [] ++ acc := by
  induction f with
  | zero => intro n acc; simp [Nat.toDigitsCore]
  | succ f ih =>
    intro n acc
    simp only [Nat.toDigitsCore]
    by_cases h : n / 10 = 0
    · simp [h]
    · simp only [h, if_false]
      rw [ih (n / 10) (Nat.digitChar (n % 10) :: acc),
        ih (n / 10) (Nat.digitChar (n % 10) :: [])]
      simp

theorem toDigitsCore_digits (f : Nat) :
    ∀ (n : Nat) (acc : List Char), (∀ c ∈ acc, c.isDigit = true) →
      ∀ c ∈ Nat.toDigitsCore 10 f n acc, c.isDigit = true := by
  induction f with
  | zero => intro n acc hacc; simpa [Nat.toDigitsCore] using hacc
  | succ f ih =>
    intro n acc hacc
    simp only [Nat.toDigitsCore]
    have hd : (Nat.digitChar (n % 10)).isDigit = true :=
      digitChar_isDigit _ (Nat.mod_lt n (by decide))
    by_cases h : n / 10 = 0
    · simp only [h, if_true]
      intro c hc
      rcases List.mem_cons.mp hc with rfl | hc
      · exact hd
      · exact hacc c hc
    · simp only [h, if_false]
      refine ih (n / 10) (Nat.digitChar (n % 10) :: acc) ?_
      intro c hc
      rcases List.mem_cons.mp hc with rfl | hc
      · exact hd
      · exact hacc c hc

theorem valOf_concat (l : List Char) (c : Char) :
    valOf (l ++ [c]) = 10 * valOf l + chVal c := by
  simp [valOf, List.foldl_append]

theorem valOf_toDigitsCore (f : Nat) :
    ∀ n : Nat, n < f → valOf (Nat.toDigitsCore 10 f n []) = n := by
  induction f with
  | zero => intro n hn; omega
  | succ f ih =>
    intro n hn
    simp only [Nat.toDigitsCore]
    by_cases h : n / 10 = 0
    · have hn10 : n < 10 := by omega
      simp only [h, if_true]
      show 10 * 0 + chVal (Nat.digitChar (n % 10)) = n
      rw [chVal_digitChar _ (Nat.mod_lt n (by decide))]
      omega
    · simp only [h, if_false]
      rw [toDigitsCore_append, valOf_concat,
        ih (n / 10) (by omega), chVal_digitChar _ (Nat.mod_lt n (by decide))]
      omega

theorem repr_data (n : Nat) : (Nat.repr n).data = Nat.toDigitsCore 10 (n + 1) n [] := rfl

theorem repr_data_digits (n : Nat) : ∀ c ∈ (Nat.repr n).data, c.isDigit = true := by
  rw [repr_data]
  exact toDigitsCore_digits _ n [] (by intro c hc; cases hc)

theorem repr_inj {a b : Nat} (h : Nat.repr a = Nat.repr b) : a = b := by
  have hd : Nat.toDigitsCore 10 (a + 1) a [] = Nat.toDigitsCore 10 (b + 1) b [] := by
    rw [← repr_data, ← repr_data, h]
  have hv := congrArg valOf hd
  rwa [valOf_toDigitsCore _ a (Nat.lt_succ_self a),
    valOf_toDigitsCore _ b (Nat.lt_succ_self b)] at hv

/-- Splitting a digit-string/separator/rest concatenation is unambiguous:
the first non-digit character marks the separator. -/
theorem sep_split {c : Char} (hc : c.isDigit = false) :
    ∀ (as : List Char) (bs xs ys : List Char),
      (∀ a ∈ as, a.isDigit = true) → (∀ b ∈ bs, b.isDigit = true) →
      as ++ c :: xs = bs ++ c :: ys → as = bs ∧ xs = ys := by
  intro as
  induction as with
  | nil =>
    intro bs xs ys _ hbs h
    cases bs with
    | nil => simpa using h
    | cons b bs2 =>
      simp only [List.nil_append, List.cons_append, List.cons.injEq] at h
      exfalso
      have hb : b.isDigit = true := hbs b (List.mem_cons_self b bs2)
      rw [← h.1] at hb
      rw [hc] at hb
      exact Bool.false_ne_true hb
  | cons a as2 ih =>
    intro bs xs ys has hbs h
    cases bs with
    | nil =>
      simp only [List.cons_append, List.nil_append, List.cons.injEq] at h
      exfalso
      have ha : a.isDigit = true := has a (List.mem_cons_self a as2)
      rw [h.1] at ha
      rw [hc] at ha
      exact Bool.false_ne_true ha
    | cons b bs2 =>
      simp only [List.cons_append, List.cons.injEq] at h
      obtain ⟨rfl, h2⟩ := h
      have := ih bs2 xs ys (fun x hx => has x (List.mem_cons_of_mem _ hx))
        (fun x hx => hbs x (List.mem_cons_of_mem _ hx)) h2
      exact ⟨by rw [this.1], this.2⟩

theorem dash_data : ("-" : String).data = ['-'] := rfl

theorem colon_data : (":" : String).data = [':'] := rfl

theorem usage_lit_data :
    ("gemini:usage:" : String).data =
      ['g', 'e', 'm', 'i', 'n', 'i', ':', 'u', 's', 'a', 'g', 'e', ':'] := rfl

theorem cursor_lit_data :
    cursorKey.data =
      ['g', 'e', 'm', 'i', 'n', 'i', ':', 'g', 'l', 'o', 'b', 'a', 'l', '_', 'r', 'e',
        'q', 'u', 'e', 's', 't', '_', 'c', 'o', 'u', 'n', 't', 'e', 'r'] := rfl

/-- A usage-counter key is never the rotation-cursor key (they differ at
character 7: `u` versus `g`). -/
theorem keyUsageKey_ne_cursorKey (i : Nat) (m : String) : keyUsageKey i m ≠ cursorKey := by
  intro h
  have hd := congrArg String.data h
  simp only [keyUsageKey, String.data_append, List.append_assoc, usage_lit_data,
    cursor_lit_data, List.cons_append, List.nil_append, List.cons.injEq] at hd
  exact absurd hd.2.2.2.2.2.2.2.1 (by decide)

/-- Within one window, distinct candidate indices give distinct
usage-counter keys. -/
theorem keyUsageKey_inj {i j : Nat} {m : String} (h : keyUsageKey i m = keyUsageKey j m) :
    i = j := by
  have hd := congrArg String.data h
  simp only [keyUsageKey, String.data_append, List.append_assoc, colon_data,
    List.singleton_append] at hd
  have hd2 := List.append_cancel_left hd
  have hsplit := sep_split (by decide) (Nat.repr i).data (Nat.repr j).data m.data m.data
    (repr_data_digits i) (repr_data_digits j) hd2
  exact repr_inj (String.ext hsplit.1)

/-- The window identifier determines the minute components: distinct wall
clock minutes always yield distinct `currentMinute` strings. -/
theorem currentMinute_inj {d d' : JSDate} (h : currentMinute d = currentMinute d') :
    d = d' := by
  have hd := congrArg String.data h
  simp only [currentMinute, String.data_append, List.append_assoc, dash_data, colon_data,
    List.singleton_append] at hd
  have h1 := sep_split (c := '-') (by decide) _ _ _ _
    (repr_data_digits d.year) (repr_data_digits d'.year) hd
  have h2 := sep_split (c := '-') (by decide) _ _ _ _
    (repr_data_digits d.month) (repr_data_digits d'.month) h1.2
  have h3 := sep_split (c := ':') (by decide) _ _ _ _
    (repr_data_digits d.date) (repr_data_digits d'.date) h2.2
  have h4 := sep_split (c := ':') (by decide) _ _ _ _
    (repr_data_digits d.hours) (repr_data_digits d'.hours) h3.2
  have hy := repr_inj (String.ext h1.1)
  have hmo := repr_inj (String.ext h2.1)
  have hda := repr_inj (String.ext h3.1)
  have hh := repr_inj (String.ext h4.1)
  have hmi := repr_inj (String.ext h4.2)
  cases d
  cases d'
  simp only at hy hmo hda hh hmi
  simp [hy, hmo, hda, hh, hmi]

/-! ## Store-state and trace helper lemmas -/

theorem setKv_self (kv : String → Nat) (k : String) (v : Nat) : setKv kv k v k = v := by
  simp [setKv]

theorem setKv_ne (kv : String → Nat) (k : String) (v : Nat) (k2 : String) (h : k2 ≠ k) :
    setKv kv k v k2 = kv k2 := by
  simp [setKv, h]

theorem afterCand_kv_self (s : StoreState) (u : String) : (afterCand s u).kv u = s.kv u + 1 := by
  by_cases h : s.kv u + 1 = 1 <;>
    simp [afterCand, h, afterExpire, afterIncr, setKv_self]

theorem afterCand_kv_ne (s : StoreState) (u k : String) (h : k ≠ u) :
    (afterCand s u).kv k = s.kv k := by
  by_cases h1 : s.kv u + 1 = 1 <;>
    simp [afterCand, h1, afterExpire, afterIncr, setKv_ne _ _ _ _ h]

theorem afterCand_calls (s : StoreState) (u : String) :
    (afterCand s u).calls = s.calls ++ examTrace s.kv [u] := by
  by_cases h : s.kv u = 0
  · have h1 : s.kv u + 1 = 1 := by omega
    simp [afterCand, h1, afterExpire, afterIncr, examTrace, h]
  · have h1 : ¬ s.kv u + 1 = 1 := by omega
    simp [afterCand, h1, afterIncr, examTrace, h]

theorem examTrace_cons (kv : String → Nat) (u : String) (us : List String) :
    examTrace kv (u :: us) = examTrace kv [u] ++ examTrace kv us := by
  simp [examTrace]

theorem examTrace_congr (kv1 kv2 : String → Nat) :
    ∀ us : List String, (∀ u ∈ us, kv1 u = kv2 u) → examTrace kv1 us = examTrace kv2 us := by
  intro us
  induction us with
  | nil => intro; rfl
  | cons u us ih =>
    intro h
    have hu : kv1 u = kv2 u := h u (List.mem_cons_self u us)
    simp only [examTrace, hu, ih fun x hx => h x (List.mem_cons_of_mem _ hx)]

theorem incrKeys_append (l1 l2 : List StoreOp) :
    incrKeys (l1 ++ l2) = incrKeys l1 ++ incrKeys l2 := by
  simp [incrKeys, List.filterMap_append]

theorem expireOps_append (l1 l2 : List StoreOp) :
    expireOps (l1 ++ l2) = expireOps l1 ++ expireOps l2 := by
  simp [expireOps, List.filterMap_append]

theorem incrKeys_examTrace (kv : String → Nat) :
    ∀ us : List String, incrKeys (examTrace kv us) = us := by
  intro us
  induction us with
  | nil => rfl
  | cons u us ih =>
    by_cases h : kv u = 0 <;>
      simp [examTrace, h, incrKeys, List.filterMap_append] <;>
      simpa [incrKeys] using ih

theorem expireOps_examTrace (kv : String → Nat) :
    ∀ us : List String,
      expireOps (examTrace kv us) =
        (us.filter fun u => kv u == 0).map fun u => (u, 120) := by
  intro us
  induction us with
  | nil => rfl
  | cons u us ih =>
    by_cases h : kv u = 0 <;>
      simp [examTrace, h, expireOps, List.filterMap_append, List.filter_cons] <;>
      simpa [expireOps] using ih

theorem length_examTrace (kv : String → Nat) :
    ∀ us : List String,
      (examTrace kv us).length = us.length + (us.filter fun u => kv u == 0).length := by
  intro us
  induction us with
  | nil => rfl
  | cons u us ih =>
    by_cases h : kv u = 0 <;> simp [examTrace, h, List.filter_cons, ih] <;> omega

/-- Fault-free unfolding of one step of the candidate loop. -/
theorem examine_noFail_cons (keys : List String) (minute : String) (startIndex i : Nat)
    (rest : List Nat) (s : StoreState) :
    examine noFail keys minute startIndex (i :: rest) s =
      if s.kv (candKey keys minute startIndex i) + 1 ≤ MAX_REQUESTS_PER_MINUTE then
        (Except.ok (keys.getD ((startIndex + i) % keys.length) ""),
          afterCand s (candKey keys minute startIndex i))
      else
        examine noFail keys minute startIndex rest
          (afterCand s (candKey keys minute startIndex i)) := by
  by_cases h1 : s.kv (candKey keys minute startIndex i) + 1 = 1
  · have hle : s.kv (candKey keys minute startIndex i) + 1 ≤ MAX_REQUESTS_PER_MINUTE := by
      rw [h1]; decide
    simp [examine, noFail, h1, afterCand, hle]
  · simp [examine, noFail, h1, afterCand]

/-- Fault-free characterization of the candidate loop: it examines a prefix
of `k` candidates, emits exactly their increment/expiry trace, bumps exactly
their counters by one, and either accepts the `k`-th candidate (post-value at
most the quota, all earlier rejected) or rejects every candidate and fails
`exhausted`. -/
theorem examine_run_spec (keys : List String) (minute : String) (startIndex : Nat) :
    ∀ (idxs : List Nat) (s : StoreState),
      (idxs.map (candKey keys minute startIndex)).Nodup →
      ∃ k, k ≤ idxs.length ∧
        (examine noFail keys minute startIndex idxs s).2.calls =
          s.calls ++ examTrace s.kv ((idxs.take k).map (candKey keys minute startIndex)) ∧
        (∀ key, key ∉ (idxs.take k).map (candKey keys minute startIndex) →
          (examine noFail keys minute startIndex idxs s).2.kv key = s.kv key) ∧
        (∀ i ∈ idxs.take k,
          (examine noFail keys minute startIndex idxs s).2.kv (candKey keys minute startIndex i) =
            s.kv (candKey keys minute startIndex i) + 1) ∧
        (((examine noFail keys minute startIndex idxs s).1 = Except.error KMError.exhausted ∧
            k = idxs.length ∧
            ∀ i ∈ idxs,
              MAX_REQUESTS_PER_MINUTE < s.kv (candKey keys minute startIndex i) + 1) ∨
          (∃ i rest2, idxs.drop (k - 1) = i :: rest2 ∧ 1 ≤ k ∧
            (examine noFail keys minute startIndex idxs s).1 =
              Except.ok (keys.getD ((startIndex + i) % keys.length) "") ∧
            s.kv (candKey keys minute startIndex i) + 1 ≤ MAX_REQUESTS_PER_MINUTE ∧
            ∀ j ∈ idxs.take (k - 1),
              MAX_REQUESTS_PER_MINUTE < s.kv (candKey keys minute startIndex j) + 1)) := by
  intro idxs
  induction idxs with
  | nil =>
    intro s _
    refine ⟨0, Nat.le_refl 0, ?_, ?_, ?_, ?_⟩
    · simp [examine, examTrace]
    · intro key _; rfl
    · intro i hi; simp at hi
    · left
      refine ⟨rfl, rfl, ?_⟩
      intro i hi; simp at hi
  | cons i rest ih =>
    intro s hnd
    rw [List.map_cons, List.nodup_cons] at hnd
    obtain ⟨hnotin, hndrest⟩ := hnd
    rw [examine_noFail_cons]
    by_cases hacc : s.kv (candKey keys minute startIndex i) + 1 ≤ MAX_REQUESTS_PER_MINUTE
    · rw [if_pos hacc]
      refine ⟨1, by simp, ?_, ?_, ?_, ?_⟩
      · simp only [List.take_succ_cons, List.take_zero, List.map_cons, List.map_nil]
        exact afterCand_calls s _
      · intro key hkey
        simp only [List.take_succ_cons, List.take_zero, List.map_cons, List.map_nil,
          List.mem_singleton] at hkey
        exact afterCand_kv_ne s _ key hkey
      · intro i2 hi2
        simp only [List.take_succ_cons, List.take_zero, List.mem_singleton] at hi2
        subst hi2
        exact afterCand_kv_self s _
      · right
        refine ⟨i, rest, by simp, Nat.le_refl 1, rfl, hacc, ?_⟩
        intro j hj
        simp at hj
    · rw [if_neg hacc]
      obtain ⟨k', hk'len, hcalls, hframe, hcnt, hres⟩ :=
        ih (afterCand s (candKey keys minute startIndex i)) hndrest
      have hagree : ∀ j ∈ rest,
          (afterCand s (candKey keys minute startIndex i)).kv (candKey keys minute startIndex j) =
            s.kv (candKey keys minute startIndex j) := by
        intro j hj
        refine afterCand_kv_ne s _ _ ?_
        intro hek
        exact hnotin (hek ▸ List.mem_map_of_mem _ hj)
      have hsub : ∀ x ∈ (rest.take k').map (candKey keys minute startIndex),
          (afterCand s (candKey keys minute startIndex i)).kv x = s.kv x := by
        intro x hx
        obtain ⟨j, hj, rfl⟩ := List.mem_map.mp hx
        exact hagree j (List.take_subset k' rest hj)
      have hnotin' : candKey keys minute startIndex i ∉
          (rest.take k').map (candKey keys minute startIndex) := by
        intro hx
        obtain ⟨j, hj, hje⟩ := List.mem_map.mp hx
        exact hnotin (hje ▸ List.mem_map_of_mem _ (List.take_subset k' rest hj))
      refine ⟨k' + 1, by simpa using Nat.succ_le_succ hk'len, ?_, ?_, ?_, ?_⟩
      · rw [List.take_succ_cons, List.map_cons, examTrace_cons,
          examTrace_congr s.kv (afterCand s (candKey keys minute startIndex i)).kv
            ((rest.take k').map (candKey keys minute startIndex)) (fun x hx => (hsub x hx).symm),
          hcalls, afterCand_calls]
        simp [List.append_assoc]
      · intro key hkey
        rw [List.take_succ_cons, List.map_cons, List.mem_cons] at hkey
        push_neg at hkey
        rw [hframe key hkey.2]
        exact afterCand_kv_ne s _ key hkey.1
      · intro i2 hi2
        rw [List.take_succ_cons, List.mem_cons] at hi2
        rcases hi2 with rfl | hi2
        · rw [hframe _ hnotin']
          exact afterCand_kv_self s _
        · rw [hcnt i2 hi2, hagree i2 (List.take_subset k' rest hi2)]
      · rcases hres with ⟨hex, hkeq, hrej⟩ | ⟨i2, rest2, hdrop, hk1, hok, hacc2, hrejall⟩
        · left
          refine ⟨hex, by simp [hkeq], ?_⟩
          intro j hj
          rcases List.mem_cons.mp hj with rfl | hj
          · omega
          · rw [← hagree j hj]
            exact hrej j hj
        · right
          refine ⟨i2, rest2, ?_, Nat.succ_le_succ (Nat.zero_le k'), hok, ?_, ?_⟩
          · have hk'eq : k' + 1 - 1 = (k' - 1) + 1 := by omega
            rw [hk'eq, List.drop_succ_cons]
            exact hdrop
          · have hi2mem : i2 ∈ rest :=
              List.drop_subset (k' - 1) rest (hdrop ▸ List.mem_cons_self i2 rest2)
            rw [← hagree i2 hi2mem]
            exact hacc2
          · intro j hj
            have hk'eq : k' + 1 - 1 = (k' - 1) + 1 := by omega
            rw [hk'eq, List.take_succ_cons, List.mem_cons] at hj
            rcases hj with rfl | hj
            · omega
            · rw [← hagree j (List.take_subset (k' - 1) rest hj)]
              exact hrejall j hj

/-- Fault-free characterization of a whole `getAvailableKey` call on a
non-empty pool: the cursor is incremented exactly once, the examined
candidates are the rotation prefix of length `k`, their counters are each
incremented exactly once, nothing else changes, and the result either
accepts the last examined candidate or is `exhausted` with every candidate
rejected. -/
theorem gak_run_spec (keys : List String) (now : JSDate) (s : StoreState) (h : keys ≠ []) :
    ∃ k, 1 ≤ k ∧ k ≤ keys.length ∧
      (getAvailableKey noFail keys now s).2.calls =
        s.calls ++ StoreOp.incr cursorKey ::
          examTrace s.kv ((List.range k).map
            (candKey keys (currentMinute now) ((s.kv cursorKey + 1) % keys.length))) ∧
      (getAvailableKey noFail keys now s).2.kv cursorKey = s.kv cursorKey + 1 ∧
      (∀ key, key ≠ cursorKey →
        key ∉ (List.range k).map
          (candKey keys (currentMinute now) ((s.kv cursorKey + 1) % keys.length)) →
        (getAvailableKey noFail keys now s).2.kv key = s.kv key) ∧
      (∀ i < k,
        (getAvailableKey noFail keys now s).2.kv
            (candKey keys (currentMinute now) ((s.kv cursorKey + 1) % keys.length) i) =
          s.kv (candKey keys (currentMinute now) ((s.kv cursorKey + 1) % keys.length) i) + 1) ∧
      (((getAvailableKey noFail keys now s).1 = Except.error KMError.exhausted ∧
          k = keys.length ∧
          ∀ i < keys.length, MAX_REQUESTS_PER_MINUTE <
            s.kv (candKey keys (currentMinute now) ((s.kv cursorKey + 1) % keys.length) i) + 1) ∨
        ((getAvailableKey noFail keys now s).1 =
            Except.ok (keys.getD (((s.kv cursorKey + 1) % keys.length + (k - 1)) % keys.length) "") ∧
          s.kv (candKey keys (currentMinute now) ((s.kv cursorKey + 1) % keys.length) (k - 1)) + 1 ≤
            MAX_REQUESTS_PER_MINUTE ∧
          ∀ j < k - 1, MAX_REQUESTS_PER_MINUTE <
            s.kv (candKey keys (currentMinute now) ((s.kv cursorKey + 1) % keys.length) j) + 1)) := by
  have hNpos : 0 < keys.length := List.length_pos.mpr h
  have hN : ¬ keys.length = 0 := by omega
  have hgak : getAvailableKey noFail keys now s =
      examine noFail keys (currentMinute now) ((s.kv cursorKey + 1) % keys.length)
        (List.range keys.length) (afterIncr s cursorKey) := by
    simp [getAvailableKey, hN, noFail]
  have hckc : ∀ j, candKey keys (currentMinute now) ((s.kv cursorKey + 1) % keys.length) j ≠
      cursorKey := fun j => keyUsageKey_ne_cursorKey _ _
  have hinj : ∀ x ∈ List.range keys.length, ∀ y ∈ List.range keys.length,
      candKey keys (currentMinute now) ((s.kv cursorKey + 1) % keys.length) x =
        candKey keys (currentMinute now) ((s.kv cursorKey + 1) % keys.length) y → x = y := by
    intro x hx y hy hxy
    have hmod : ((s.kv cursorKey + 1) % keys.length + x) % keys.length =
        ((s.kv cursorKey + 1) % keys.length + y) % keys.length := keyUsageKey_inj hxy
    have hmeq : x ≡ y [MOD keys.length] :=
      Nat.ModEq.add_left_cancel (Nat.ModEq.refl ((s.kv cursorKey + 1) % keys.length)) hmod
    rw [Nat.ModEq, Nat.mod_eq_of_lt (List.mem_range.mp hx),
      Nat.mod_eq_of_lt (List.mem_range.mp hy)] at hmeq
    exact hmeq
  have hnd := (List.nodup_range keys.length).map_on hinj
  obtain ⟨k, hklen, hcalls, hframe, hcnt, hres⟩ :=
    examine_run_spec keys (currentMinute now) ((s.kv cursorKey + 1) % keys.length)
      (List.range keys.length) (afterIncr s cursorKey) hnd
  rw [List.length_range] at hklen
  have htake : (List.range keys.length).take k = List.range k := by
    rw [List.take_range, Nat.min_eq_left hklen]
  rw [htake] at hcalls hframe hcnt
  have hs1kv : ∀ j, (afterIncr s cursorKey).kv
      (candKey keys (currentMinute now) ((s.kv cursorKey + 1) % keys.length) j) =
      s.kv (candKey keys (currentMinute now) ((s.kv cursorKey + 1) % keys.length) j) := by
    intro j
    show setKv s.kv cursorKey (s.kv cursorKey + 1)
      (candKey keys (currentMinute now) ((s.kv cursorKey + 1) % keys.length) j) = _
    exact setKv_ne _ _ _ _ (hckc j)
  have hcursor_notin : ∀ m, cursorKey ∉ (List.range m).map
      (candKey keys (currentMinute now) ((s.kv cursorKey + 1) % keys.length)) := by
    intro m hmem
    obtain ⟨j, _, hje⟩ := List.mem_map.mp hmem
    exact hckc j hje
  have hk1 : 1 ≤ k := by
    rcases hres with ⟨_, hkeq, _⟩ | ⟨_, _, _, hk1, _⟩
    · rw [hkeq, List.length_range]; exact hNpos
    · assumption
  refine ⟨k, hk1, hklen, ?_, ?_, ?_, ?_, ?_⟩
  · rw [hgak, hcalls,
      examTrace_congr (afterIncr s cursorKey).kv s.kv _ (fun x hx => by
        obtain ⟨j, _, rfl⟩ := List.mem_map.mp hx
        exact hs1kv j)]
    simp [afterIncr, List.append_assoc]
  · rw [hgak, hframe cursorKey (hcursor_notin k)]
    simp [afterIncr, setKv_self]
  · intro key hkc hkm
    rw [hgak, hframe key hkm]
    exact setKv_ne _ _ _ _ hkc
  · intro i hi
    rw [hgak, hcnt i (List.mem_range.mpr hi), hs1kv i]
  · rcases hres with ⟨hex, hkeq, hrej⟩ | ⟨i2, rest2, hdrop, _, hok, hacc2, hrejall⟩
    · left
      rw [List.length_range] at hkeq
      refine ⟨by rw [hgak]; exact hex, hkeq, ?_⟩
      intro i hi
      rw [← hs1kv i]
      exact hrej i (List.mem_range.mpr hi)
    · right
      have hi2 : i2 = k - 1 := by
        have h1 : (List.range keys.length)[k - 1 + 0]? = some i2 := by
          rw [← List.getElem?_drop, hdrop]
          simp
        have h2 : (List.range keys.length)[k - 1]? = some (k - 1) :=
          List.getElem?_range (by omega)
        rw [Nat.add_zero, h2] at h1
        exact (Option.some.inj h1).symm
      subst hi2
      have htake2 : (List.range keys.length).take (k - 1) = List.range (k - 1) := by
        rw [List.take_range, Nat.min_eq_left (by omega)]
      rw [htake2] at hrejall
      refine ⟨by rw [hgak]; exact hok, ?_, ?_⟩
      · rw [← hs1kv (k - 1)]
        exact hacc2
      · intro j hj
        rw [← hs1kv j]
        exact hrejall j (List.mem_range.mpr hj)

theorem kv_le_afterIncr (s : StoreState) (u : String) (key : String) :
    s.kv key ≤ (afterIncr s u).kv key := by
  by_cases h : key = u
  · subst h; simp [afterIncr, setKv_self]
  · simp [afterIncr, setKv_ne _ _ _ _ h]

/-- No store path ever lowers a counter: every branch of the candidate loop
only performs increments (or expiries, which leave values unchanged). -/
theorem examine_kv_mono (fail : Nat → Bool) (keys : List String) (minute : String)
    (startIndex : Nat) :
    ∀ (idxs : List Nat) (s : StoreState) (key : String),
      s.kv key ≤ (examine fail keys minute startIndex idxs s).2.kv key := by
  intro idxs
  induction idxs with
  | nil => intro s key; exact Nat.le_refl _
  | cons i rest ih =>
    intro s key
    rw [examine]
    by_cases hf : fail s.calls.length
    · rw [if_pos hf]
    · rw [if_neg hf]
      by_cases h1 : s.kv (candKey keys minute startIndex i) + 1 = 1
      · rw [if_pos h1]
        by_cases hf2 : fail (afterIncr s (candKey keys minute startIndex i)).calls.length
        · rw [if_pos hf2]
          exact kv_le_afterIncr s _ key
        · rw [if_neg hf2]
          by_cases h2 : s.kv (candKey keys minute startIndex i) + 1 ≤ MAX_REQUESTS_PER_MINUTE
          · rw [if_pos h2]
            exact kv_le_afterIncr s _ key
          · rw [if_neg h2]
            exact Nat.le_trans (kv_le_afterIncr s (candKey keys minute startIndex i) key)
              (ih (afterExpire (afterIncr s (candKey keys minute startIndex i))
                (candKey keys minute startIndex i)) key)
      · rw [if_neg h1]
        by_cases h2 : s.kv (candKey keys minute startIndex i) + 1 ≤ MAX_REQUESTS_PER_MINUTE
        · rw [if_pos h2]
          exact kv_le_afterIncr s _ key
        · rw [if_neg h2]
          exact Nat.le_trans (kv_le_afterIncr s _ key) (ih _ key)

/-- Counters never decrease across a whole call, on every code path and
under every failure schedule. -/
theorem gak_kv_mono (fail : Nat → Bool) (keys : List String) (now : JSDate)
    (s : StoreState) (key : String) :
    s.kv key ≤ (getAvailableKey fail keys now s).2.kv key := by
  rw [getAvailableKey]
  by_cases h0 : keys.length = 0
  · rw [if_pos h0]
  · rw [if_neg h0]
    by_cases hf : fail s.calls.length
    · rw [if_pos hf]
    · rw [if_neg hf]
      exact Nat.le_trans (kv_le_afterIncr s cursorKey key)
        (examine_kv_mono fail keys (currentMinute now) _ _ _ key)

/-- A run of the candidate loop under an arbitrary failure schedule either
aborts with `storeUnavailable` or coincides (result and final store state)
with the fault-free run: failures are never swallowed or skipped over. -/
theorem examine_dichotomy (fail : Nat → Bool) (keys : List String) (minute : String)
    (startIndex : Nat) :
    ∀ (idxs : List Nat) (s : StoreState),
      (examine fail keys minute startIndex idxs s).1 = Except.error KMError.storeUnavailable ∨
        examine fail keys minute startIndex idxs s =
          examine noFail keys minute startIndex idxs s := by
  intro idxs
  induction idxs with
  | nil => intro s; right; rfl
  | cons i rest ih =>
    intro s
    rw [examine_noFail_cons]
    rw [examine]
    by_cases hf : fail s.calls.length
    · left; rw [if_pos hf]
    · rw [if_neg hf]
      by_cases h1 : s.kv (candKey keys minute startIndex i) + 1 = 1
      · rw [if_pos h1]
        by_cases hf2 : fail (afterIncr s (candKey keys minute startIndex i)).calls.length
        · left; rw [if_pos hf2]
        · rw [if_neg hf2]
          have hcand : afterExpire (afterIncr s (candKey keys minute startIndex i))
              (candKey keys minute startIndex i) =
              afterCand s (candKey keys minute startIndex i) := by
            rw [afterCand, if_pos h1]
          by_cases h2 : s.kv (candKey keys minute startIndex i) + 1 ≤ MAX_REQUESTS_PER_MINUTE
          · right
            rw [if_pos h2, if_pos h2, hcand]
          · rw [if_neg h2, if_neg h2, hcand]
            exact ih _
      · rw [if_neg h1]
        have hcand : afterIncr s (candKey keys minute startIndex i) =
            afterCand s (candKey keys minute startIndex i) := by
          rw [afterCand, if_neg h1]
        by_cases h2 : s.kv (candKey keys minute startIndex i) + 1 ≤ MAX_REQUESTS_PER_MINUTE
        · right
          rw [if_pos h2, if_pos h2, hcand]
        · rw [if_neg h2, if_neg h2, hcand]
          exact ih _

/-- A whole call under an arbitrary failure schedule either fails with
`storeUnavailable` or coincides with the fault-free call. -/
theorem gak_dichotomy (fail : Nat → Bool) (keys : List String) (now : JSDate)
    (s : StoreState) :
    (getAvailableKey fail keys now s).1 = Except.error KMError.storeUnavailable ∨
      getAvailableKey fail keys now s = getAvailableKey noFail keys now s := by
  rw [getAvailableKey, getAvailableKey]
  by_cases h0 : keys.length = 0
  · right; rw [if_pos h0, if_pos h0]
  · rw [if_neg h0, if_neg h0]
    by_cases hf : fail s.calls.length
    · left; rw [if_pos hf]
    · rw [if_neg hf]
      have hnf : ¬ noFail s.calls.length = true := by simp [noFail]
      rw [if_neg hnf]
      exact examine_dichotomy fail keys (currentMinute now) _ _ _

/-- If the very first store call (the cursor increment) is scheduled to
fail, the call aborts immediately with `storeUnavailable` and an untouched
store. -/
theorem gak_cursor_failure (fail : Nat → Bool) (keys : List String) (now : JSDate)
    (s : StoreState) (h : keys ≠ []) (hf : fail s.calls.length = true) :
    getAvailableKey fail keys now s = (Except.error KMError.storeUnavailable, s) := by
  have hN : ¬ keys.length = 0 := by
    have := List.length_pos.mpr h
    omega
  rw [getAvailableKey, if_neg hN, if_pos hf]

/-- The result of the candidate loop depends only on the counters of the
usage keys it examines. -/
theorem examine_result_congr (keys : List String) (minute : String) (startIndex : Nat) :
    ∀ (idxs : List Nat) (s s' : StoreState),
      (∀ i ∈ idxs,
        s.kv (candKey keys minute startIndex i) = s'.kv (candKey keys minute startIndex i)) →
      (examine noFail keys minute startIndex idxs s).1 =
        (examine noFail keys minute startIndex idxs s').1 := by
  intro idxs
  induction idxs with
  | nil => intro s s' _; rfl
  | cons i rest ih =>
    intro s s' h
    rw [examine_noFail_cons, examine_noFail_cons]
    have hu := h i (List.mem_cons_self i rest)
    rw [hu]
    by_cases h2 : s'.kv (candKey keys minute startIndex i) + 1 ≤ MAX_REQUESTS_PER_MINUTE
    · rw [if_pos h2, if_pos h2]
    · rw [if_neg h2, if_neg h2]
      refine ih (afterCand s (candKey keys minute startIndex i))
        (afterCand s' (candKey keys minute startIndex i)) ?_
      intro j hj
      by_cases hcj : candKey keys minute startIndex j = candKey keys minute startIndex i
      · rw [hcj, afterCand_kv_self, afterCand_kv_self, hu]
      · rw [afterCand_kv_ne s _ _ hcj, afterCand_kv_ne s' _ _ hcj]
        exact h j (List.mem_cons_of_mem i hj)

/-- The result of a whole call depends only on the cursor value and the
counters of the current window's usage keys: counters belonging to any
other window have no influence. -/
theorem gak_result_congr (keys : List String) (now : JSDate) (s s' : StoreState)
    (hc : s.kv cursorKey = s'.kv cursorKey)
    (hw : ∀ i < keys.length,
      s.kv (keyUsageKey i (currentMinute now)) = s'.kv (keyUsageKey i (currentMinute now))) :
    (getAvailableKey noFail keys now s).1 = (getAvailableKey noFail keys now s').1 := by
  rw [getAvailableKey, getAvailableKey]
  by_cases h0 : keys.length = 0
  · rw [if_pos h0, if_pos h0]
  · rw [if_neg h0, if_neg h0]
    have hnf : ¬ noFail s.calls.length = true := by simp [noFail]
    have hnf' : ¬ noFail s'.calls.length = true := by simp [noFail]
    rw [if_neg hnf, if_neg hnf', hc]
    refine examine_result_congr keys (currentMinute now) _ _ _ _ ?_
    intro i _
    have hne : candKey keys (currentMinute now) ((s'.kv cursorKey + 1) % keys.length) i ≠
        cursorKey := keyUsageKey_ne_cursorKey _ _
    simp only [afterIncr]
    rw [setKv_ne _ _ _ _ hne, setKv_ne _ _ _ _ hne]
    exact hw _ (Nat.mod_lt _ (Nat.pos_of_ne_zero h0))

theorem incrKeys_cons_incr (k : String) (l : List StoreOp) :
    incrKeys (StoreOp.incr k :: l) = k :: incrKeys l := rfl

theorem expireOps_cons_incr (k : String) (l : List StoreOp) :
    expireOps (StoreOp.incr k :: l) = expireOps l := rfl

/-! ## Claim theorems -/

/-- C4: a call with zero configured credentials fails immediately with the
Misconfigured error and performs no store call at all (the store state,
including its call trace, is returned untouched) — under every failure
schedule. -/
theorem empty_pool_misconfigured (fail : Nat → Bool) (now : JSDate) (s : StoreState) :
    getAvailableKey fail [] now s = (Except.error KMError.misconfigured, s) := rfl

/-- C1: every fault-free call on a non-empty pool of N credentials
increments the shared rotation cursor exactly once (its stored value grows
by exactly 1 and the single cursor `INCR` is the first store call of the
attempt, never repeated among the candidate increments); the examined
candidate counters are exactly `start, start+1, …, start+k-1 (mod N)` for
some `1 ≤ k ≤ N` where `start = cursor mod N` for the post-increment cursor
value; and no candidate is examined past the first accepted one: on success
the last examined candidate is the accepted one and all earlier ones were
rejected, and only an exhausted attempt examines all N. -/
theorem cursor_increment_and_rotation_order (keys : List String) (now : JSDate)
    (s : StoreState) (h : keys ≠ []) :
    ∃ k tl, 1 ≤ k ∧ k ≤ keys.length ∧
      (getAvailableKey noFail keys now s).2.kv cursorKey = s.kv cursorKey + 1 ∧
      (getAvailableKey noFail keys now s).2.calls = s.calls ++ StoreOp.incr cursorKey :: tl ∧
      cursorKey ∉ incrKeys tl ∧
      incrKeys tl = (List.range k).map (fun i =>
        keyUsageKey (((s.kv cursorKey + 1) % keys.length + i) % keys.length)
          (currentMinute now)) ∧
      ((getAvailableKey noFail keys now s).1 = Except.error KMError.exhausted →
        k = keys.length) ∧
      (∀ r, (getAvailableKey noFail keys now s).1 = Except.ok r →
        s.kv (keyUsageKey (((s.kv cursorKey + 1) % keys.length + (k - 1)) % keys.length)
            (currentMinute now)) + 1 ≤ MAX_REQUESTS_PER_MINUTE ∧
        ∀ j < k - 1, MAX_REQUESTS_PER_MINUTE <
          s.kv (keyUsageKey (((s.kv cursorKey + 1) % keys.length + j) % keys.length)
            (currentMinute now)) + 1) := by
  obtain ⟨k, hk1, hklen, hcalls, hkv, hframe, hcnt, hres⟩ := gak_run_spec keys now s h
  refine ⟨k, examTrace s.kv ((List.range k).map
    (candKey keys (currentMinute now) ((s.kv cursorKey + 1) % keys.length))),
    hk1, hklen, hkv, hcalls, ?_, ?_, ?_, ?_⟩
  · rw [incrKeys_examTrace]
    intro hmem
    obtain ⟨j, _, hje⟩ := List.mem_map.mp hmem
    exact keyUsageKey_ne_cursorKey _ _ hje
  · rw [incrKeys_examTrace]
    rfl
  · intro hex
    rcases hres with ⟨_, hkeq, _⟩ | ⟨hok, _, _⟩
    · exact hkeq
    · rw [hok] at hex
      cases hex
  · intro r hr
    rcases hres with ⟨hex, _, _⟩ | ⟨_, hacc, hrej⟩
    · rw [hex] at hr
      cases hr
    · exact ⟨hacc, hrej⟩

/-- Witness for C1: the theorem applied to the concrete scenario pool,
date and store. -/
theorem cursor_increment_and_rotation_order_witness :
    scenarioPool ≠ [] ∧
    ∃ k tl, 1 ≤ k ∧ k ≤ scenarioPool.length ∧
      (getAvailableKey noFail scenarioPool scenarioDate scenarioStore).2.kv cursorKey =
        scenarioStore.kv cursorKey + 1 ∧
      (getAvailableKey noFail scenarioPool scenarioDate scenarioStore).2.calls =
        scenarioStore.calls ++ StoreOp.incr cursorKey :: tl ∧
      cursorKey ∉ incrKeys tl ∧
      incrKeys tl = (List.range k).map (fun i =>
        keyUsageKey (((scenarioStore.kv cursorKey + 1) % scenarioPool.length + i) %
          scenarioPool.length) (currentMinute scenarioDate)) ∧
      ((getAvailableKey noFail scenarioPool scenarioDate scenarioStore).1 =
          Except.error KMError.exhausted → k = scenarioPool.length) ∧
      (∀ r, (getAvailableKey noFail scenarioPool scenarioDate scenarioStore).1 = Except.ok r →
        scenarioStore.kv (keyUsageKey (((scenarioStore.kv cursorKey + 1) % scenarioPool.length +
            (k - 1)) % scenarioPool.length) (currentMinute scenarioDate)) + 1 ≤
          MAX_REQUESTS_PER_MINUTE ∧
        ∀ j < k - 1, MAX_REQUESTS_PER_MINUTE <
          scenarioStore.kv (keyUsageKey (((scenarioStore.kv cursorKey + 1) % scenarioPool.length +
            j) % scenarioPool.length) (currentMinute scenarioDate)) + 1) :=
  ⟨by decide, cursor_increment_and_rotation_order scenarioPool scenarioDate scenarioStore
    (by decide)⟩

/-- C3: if every credential's counter for the current window is already at
or above the quota, the fault-free attempt fails with the Exhausted error,
returns no credential, and its store trace shows the cursor increment
followed by exactly N candidate counter increments in rotation order. -/
theorem exhaustion_examines_all (keys : List String) (now : JSDate) (s : StoreState)
    (h : keys ≠ [])
    (hsat : ∀ i < keys.length,
      MAX_REQUESTS_PER_MINUTE ≤ s.kv (keyUsageKey i (currentMinute now))) :
    (getAvailableKey noFail keys now s).1 = Except.error KMError.exhausted ∧
    (∀ r, (getAvailableKey noFail keys now s).1 ≠ Except.ok r) ∧
    incrKeys ((getAvailableKey noFail keys now s).2.calls.drop s.calls.length) =
      cursorKey :: (List.range keys.length).map (fun i =>
        keyUsageKey (((s.kv cursorKey + 1) % keys.length + i) % keys.length)
          (currentMinute now)) := by
  obtain ⟨k, hk1, hklen, hcalls, hkv, hframe, hcnt, hres⟩ := gak_run_spec keys now s h
  have hNpos : 0 < keys.length := List.length_pos.mpr h
  rcases hres with ⟨hex, hkeq, _⟩ | ⟨_, hacc, _⟩
  · subst hkeq
    refine ⟨hex, ?_, ?_⟩
    · intro r hr
      rw [hex] at hr
      cases hr
    · rw [hcalls, List.drop_left, incrKeys_cons_incr, incrKeys_examTrace]
      rfl
  · exfalso
    have hle := hsat (((s.kv cursorKey + 1) % keys.length + (k - 1)) % keys.length)
      (Nat.mod_lt _ hNpos)
    exact Nat.lt_irrefl _ (Nat.lt_of_le_of_lt hle (Nat.lt_of_succ_le hacc))

/-- Witness for C3: a one-credential pool whose only counter for the
current window is already at the quota. -/
theorem exhaustion_examines_all_witness :
    (["A"] : List String) ≠ [] ∧
    (∀ i < (["A"] : List String).length,
      MAX_REQUESTS_PER_MINUTE ≤ satStore.kv (keyUsageKey i (currentMinute scenarioDate))) ∧
    ((getAvailableKey noFail ["A"] scenarioDate satStore).1 = Except.error KMError.exhausted ∧
      (∀ r, (getAvailableKey noFail ["A"] scenarioDate satStore).1 ≠ Except.ok r) ∧
      incrKeys ((getAvailableKey noFail ["A"] scenarioDate satStore).2.calls.drop
          satStore.calls.length) =
        cursorKey :: (List.range (["A"] : List String).length).map (fun i =>
          keyUsageKey (((satStore.kv cursorKey + 1) % (["A"] : List String).length + i) %
            (["A"] : List String).length) (currentMinute scenarioDate))) :=
  ⟨by decide, by decide, exhaustion_examines_all ["A"] scenarioDate satStore
    (by decide) (by decide)⟩

/-- C2: the examined candidates' counters are each incremented exactly once
(the increment precedes the quota check, see the trace characterization in
the rotation-order theorem); a candidate is accepted exactly when its
post-increment value is at most the quota (3): on success the returned
credential is the last examined candidate, whose post-increment value is
under quota, all earlier candidates being over quota; on exhaustion every
candidate was over quota; and no counter is ever decremented on any code
path under any failure schedule. -/
theorem increment_then_check_acceptance (keys : List String) (now : JSDate)
    (s : StoreState) (h : keys ≠ []) :
    (∀ (fail : Nat → Bool) (keys2 : List String) (now2 : JSDate) (s2 : StoreState)
      (key : String), s2.kv key ≤ (getAvailableKey fail keys2 now2 s2).2.kv key) ∧
    ∃ k, 1 ≤ k ∧ k ≤ keys.length ∧
      (∀ i < k,
        (getAvailableKey noFail keys now s).2.kv
            (keyUsageKey (((s.kv cursorKey + 1) % keys.length + i) % keys.length)
              (currentMinute now)) =
          s.kv (keyUsageKey (((s.kv cursorKey + 1) % keys.length + i) % keys.length)
            (currentMinute now)) + 1) ∧
      (∀ r, (getAvailableKey noFail keys now s).1 = Except.ok r →
        r = keys.getD (((s.kv cursorKey + 1) % keys.length + (k - 1)) % keys.length) "" ∧
        s.kv (keyUsageKey (((s.kv cursorKey + 1) % keys.length + (k - 1)) % keys.length)
            (currentMinute now)) + 1 ≤ MAX_REQUESTS_PER_MINUTE ∧
        ∀ j < k - 1, MAX_REQUESTS_PER_MINUTE <
          s.kv (keyUsageKey (((s.kv cursorKey + 1) % keys.length + j) % keys.length)
            (currentMinute now)) + 1) ∧
      ((getAvailableKey noFail keys now s).1 = Except.error KMError.exhausted →
        ∀ i < keys.length, MAX_REQUESTS_PER_MINUTE <
          s.kv (keyUsageKey (((s.kv cursorKey + 1) % keys.length + i) % keys.length)
            (currentMinute now)) + 1) := by
  refine ⟨fun fail keys2 now2 s2 key => gak_kv_mono fail keys2 now2 s2 key, ?_⟩
  obtain ⟨k, hk1, hklen, hcalls, hkv, hframe, hcnt, hres⟩ := gak_run_spec keys now s h
  refine ⟨k, hk1, hklen, hcnt, ?_, ?_⟩
  · intro r hr
    rcases hres with ⟨hex, _, _⟩ | ⟨hok, hacc, hrej⟩
    · rw [hex] at hr
      cases hr
    · refine ⟨?_, hacc, hrej⟩
      rw [hr] at hok
      exact Except.ok.inj hok
  · intro hex
    rcases hres with ⟨_, _, hrej⟩ | ⟨hok, _, _⟩
    · exact hrej
    · rw [hok] at hex
      cases hex

/-- Witness for C2: the theorem applied to the concrete scenario pool, date
and store. -/
theorem increment_then_check_acceptance_witness :
    scenarioPool ≠ [] ∧
    ((∀ (fail : Nat → Bool) (keys2 : List String) (now2 : JSDate) (s2 : StoreState)
      (key : String), s2.kv key ≤ (getAvailableKey fail keys2 now2 s2).2.kv key) ∧
    ∃ k, 1 ≤ k ∧ k ≤ scenarioPool.length ∧
      (∀ i < k,
        (getAvailableKey noFail scenarioPool scenarioDate scenarioStore).2.kv
            (keyUsageKey (((scenarioStore.kv cursorKey + 1) % scenarioPool.length + i) %
              scenarioPool.length) (currentMinute scenarioDate)) =
          scenarioStore.kv (keyUsageKey (((scenarioStore.kv cursorKey + 1) %
            scenarioPool.length + i) % scenarioPool.length) (currentMinute scenarioDate)) + 1) ∧
      (∀ r, (getAvailableKey noFail scenarioPool scenarioDate scenarioStore).1 = Except.ok r →
        r = scenarioPool.getD (((scenarioStore.kv cursorKey + 1) % scenarioPool.length +
          (k - 1)) % scenarioPool.length) "" ∧
        scenarioStore.kv (keyUsageKey (((scenarioStore.kv cursorKey + 1) % scenarioPool.length +
            (k - 1)) % scenarioPool.length) (currentMinute scenarioDate)) + 1 ≤
          MAX_REQUESTS_PER_MINUTE ∧
        ∀ j < k - 1, MAX_REQUESTS_PER_MINUTE <
          scenarioStore.kv (keyUsageKey (((scenarioStore.kv cursorKey + 1) %
            scenarioPool.length + j) % scenarioPool.length) (currentMinute scenarioDate)) + 1) ∧
      ((getAvailableKey noFail scenarioPool scenarioDate scenarioStore).1 =
          Except.error KMError.exhausted →
        ∀ i < scenarioPool.length, MAX_REQUESTS_PER_MINUTE <
          scenarioStore.kv (keyUsageKey (((scenarioStore.kv cursorKey + 1) %
            scenarioPool.length + i) % scenarioPool.length) (currentMinute scenarioDate)) + 1)) :=
  ⟨by decide, increment_then_check_acceptance scenarioPool scenarioDate scenarioStore (by decide)⟩

/-- C5: if the first store call (the cursor increment) is scheduled to fail,
the call returns the StoreUnavailable error with the store untouched — no
counter increment is attempted; and under every failure schedule the call
either fails with StoreUnavailable or behaves exactly (same result, same
final store state and trace) as the fault-free call — a failed increment is
never handled by skipping to the next candidate. -/
theorem store_failure_aborts (fail : Nat → Bool) (keys : List String) (now : JSDate)
    (s : StoreState) (h : keys ≠ []) :
    (fail s.calls.length = true →
      getAvailableKey fail keys now s = (Except.error KMError.storeUnavailable, s)) ∧
    ((getAvailableKey fail keys now s).1 = Except.error KMError.storeUnavailable ∨
      getAvailableKey fail keys now s = getAvailableKey noFail keys now s) :=
  ⟨fun hf => gak_cursor_failure fail keys now s h hf, gak_dichotomy fail keys now s⟩

/-- Witness for C5: a schedule failing the very first store call, on the
concrete scenario pool and store. -/
theorem store_failure_aborts_witness :
    scenarioPool ≠ [] ∧
    (fun n => n == 0) scenarioStore.calls.length = true ∧
    (((fun n => n == 0) scenarioStore.calls.length = true →
      getAvailableKey (fun n => n == 0) scenarioPool scenarioDate scenarioStore =
        (Except.error KMError.storeUnavailable, scenarioStore)) ∧
    ((getAvailableKey (fun n => n == 0) scenarioPool scenarioDate scenarioStore).1 =
        Except.error KMError.storeUnavailable ∨
      getAvailableKey (fun n => n == 0) scenarioPool scenarioDate scenarioStore =
        getAvailableKey noFail scenarioPool scenarioDate scenarioStore)) :=
  ⟨by decide, by decide,
    store_failure_aborts (fun n => n == 0) scenarioPool scenarioDate scenarioStore (by decide)⟩

/-- C6: distinct wall-clock minutes always yield distinct window identifier
strings (and the identifier is a pure function of the minute components, so
all calls within one minute share it); moreover the result of a call in a
given window depends only on the cursor and on that window's own usage
counters — so a counter accumulated in window W has no influence on
acceptance decisions in any other window W': with fresh counters for the
new window, the same credential is immediately eligible again up to quota,
as if reset. -/
theorem window_rollover (d d' : JSDate) (keys : List String) (hne : d ≠ d') :
    currentMinute d ≠ currentMinute d' ∧
    ∀ s s' : StoreState, s.kv cursorKey = s'.kv cursorKey →
      (∀ i < keys.length,
        s.kv (keyUsageKey i (currentMinute d')) = s'.kv (keyUsageKey i (currentMinute d'))) →
      (getAvailableKey noFail keys d' s).1 = (getAvailableKey noFail keys d' s').1 :=
  ⟨fun hmm => hne (currentMinute_inj hmm),
   fun s s' hc hw => gak_result_congr keys d' s s' hc hw⟩

/-- Witness for C6: window `2024-0-1:10:0` versus the next minute
`2024-0-1:10:1`; a store whose only window-W counter is at quota behaves in
window W+1 exactly like a fresh store, and the credential is accepted
immediately. -/
theorem window_rollover_witness :
    scenarioDate ≠ (⟨2024, 0, 1, 10, 1⟩ : JSDate) ∧
    currentMinute scenarioDate ≠ currentMinute (⟨2024, 0, 1, 10, 1⟩ : JSDate) ∧
    (getAvailableKey noFail ["A"] (⟨2024, 0, 1, 10, 1⟩ : JSDate) satStore).1 =
      (getAvailableKey noFail ["A"] (⟨2024, 0, 1, 10, 1⟩ : JSDate)
        (⟨fun _ => 0, []⟩ : StoreState)).1 ∧
    (getAvailableKey noFail ["A"] (⟨2024, 0, 1, 10, 1⟩ : JSDate) satStore).1 =
      Except.ok "A" ∧
    satStore.kv (keyUsageKey 0 (currentMinute scenarioDate)) = MAX_REQUESTS_PER_MINUTE :=
  ⟨by decide,
   (window_rollover scenarioDate ⟨2024, 0, 1, 10, 1⟩ ["A"] (by decide)).1,
   (window_rollover scenarioDate ⟨2024, 0, 1, 10, 1⟩ ["A"] (by decide)).2 satStore
     ⟨fun _ => 0, []⟩ (by decide) (by decide),
   by decide, by decide⟩

theorem succ_beq_one (a : Nat) : (a + 1 == 1) = (a == 0) := by
  cases a <;> rfl

/-- C7 counterexample: the claim says a failure of the expiry call is not
itself fatal and the attempt still proceeds; but in the code the
`redis.expire` call is awaited with no error handling, so its rejection
aborts the attempt.  With one fresh credential, the fault-free run returns
the credential, while the run whose third store call (the expiry) fails
returns StoreUnavailable instead of proceeding. -/
theorem expire_failure_fatal_cex :
    (getAvailableKey (fun n => n == 2) ["A"] scenarioDate
      (⟨fun _ => 0, []⟩ : StoreState)).1 = Except.error KMError.storeUnavailable ∧
    (getAvailableKey noFail ["A"] scenarioDate (⟨fun _ => 0, []⟩ : StoreState)).1 =
      Except.ok "A" := by
  decide

/-- C7 (amended): in a fault-free attempt, an expiry — always of 120
seconds — is set on a candidate's counter key exactly when that candidate's
counter increment returned exactly 1 (first use of the credential in the
window), and on no other occasion; the expiry call is however not
best-effort: like every other store call it is awaited without handling, so
under any failure schedule the attempt either fails with StoreUnavailable
or coincides with the fault-free attempt. -/
theorem expire_on_first_use_and_fatal (keys : List String) (now : JSDate) (s : StoreState)
    (h : keys ≠ []) :
    (∃ k, 1 ≤ k ∧ k ≤ keys.length ∧
      expireOps ((getAvailableKey noFail keys now s).2.calls.drop s.calls.length) =
        (((List.range k).map fun i =>
            keyUsageKey (((s.kv cursorKey + 1) % keys.length + i) % keys.length)
              (currentMinute now)).filter fun u => s.kv u + 1 == 1).map fun u => (u, 120)) ∧
    (∀ fail : Nat → Bool,
      (getAvailableKey fail keys now s).1 = Except.error KMError.storeUnavailable ∨
        getAvailableKey fail keys now s = getAvailableKey noFail keys now s) := by
  constructor
  · obtain ⟨k, hk1, hklen, hcalls, _, _, _, _⟩ := gak_run_spec keys now s h
    refine ⟨k, hk1, hklen, ?_⟩
    rw [hcalls, List.drop_left, expireOps_cons_incr, expireOps_examTrace]
    congr 1
    exact List.filter_congr fun u _ => (succ_beq_one (s.kv u)).symm
  · intro fail
    exact gak_dichotomy fail keys now s

/-- Witness for C7 (amended): one fresh credential; the concrete fault-free
trace contains exactly one expiry, of 120 seconds, on the counter key whose
increment returned 1. -/
theorem expire_on_first_use_and_fatal_witness :
    (["A"] : List String) ≠ [] ∧
    expireOps ((getAvailableKey noFail ["A"] scenarioDate
        (⟨fun _ => 0, []⟩ : StoreState)).2.calls.drop 0) =
      [(keyUsageKey 0 (currentMinute scenarioDate), 120)] ∧
    ((∃ k, 1 ≤ k ∧ k ≤ (["A"] : List String).length ∧
      expireOps ((getAvailableKey noFail ["A"] scenarioDate
          (⟨fun _ => 0, []⟩ : StoreState)).2.calls.drop
          (⟨fun _ => 0, []⟩ : StoreState).calls.length) =
        (((List.range k).map fun i =>
            keyUsageKey ((((⟨fun _ => 0, []⟩ : StoreState).kv cursorKey + 1) %
              (["A"] : List String).length + i) % (["A"] : List String).length)
              (currentMinute scenarioDate)).filter
          fun u => (⟨fun _ => 0, []⟩ : StoreState).kv u + 1 == 1).map fun u => (u, 120)) ∧
    (∀ fail : Nat → Bool,
      (getAvailableKey fail ["A"] scenarioDate (⟨fun _ => 0, []⟩ : StoreState)).1 =
          Except.error KMError.storeUnavailable ∨
        getAvailableKey fail ["A"] scenarioDate (⟨fun _ => 0, []⟩ : StoreState) =
          getAvailableKey noFail ["A"] scenarioDate (⟨fun _ => 0, []⟩ : StoreState))) :=
  ⟨by decide, by decide,
    expire_on_first_use_and_fatal ["A"] scenarioDate ⟨fun _ => 0, []⟩ (by decide)⟩

/-- C8 counterexample: the claim says calls 1-3 all return A; but the
rotation cursor advances on every call, so call 2 starts at offset 1 and
already returns B. -/
theorem sequential_scenario_cex :
    (runSeq scenarioPool scenarioDate 10 scenarioStore).1.getD 1
        (Except.error KMError.exhausted) = Except.ok "B" ∧
    (runSeq scenarioPool scenarioDate 10 scenarioStore).1.getD 1
        (Except.error KMError.exhausted) ≠ Except.ok "A" := by
  decide

/-- C8 (amended): with pool [A, B, C], quota 3, a single fixed window and a
cursor making call 1 start at offset 0, ten sequential calls return
A, B, C, A, B, C, A, B, C (the starting offset advances by one each call,
so selection rotates through the pool) and then Exhausted: by call 10 every
counter already holds 3, the call examines A, B, C in turn — its trace is
the cursor increment followed by the three counter increments — each
counter reaches 4 and is rejected. -/
theorem sequential_scenario :
    (runSeq scenarioPool scenarioDate 10 scenarioStore).1 =
      [Except.ok "A", Except.ok "B", Except.ok "C", Except.ok "A", Except.ok "B",
        Except.ok "C", Except.ok "A", Except.ok "B", Except.ok "C",
        Except.error KMError.exhausted] ∧
    (runSeq scenarioPool scenarioDate 10 scenarioStore).2.kv
        (keyUsageKey 0 (currentMinute scenarioDate)) = 4 ∧
    (runSeq scenarioPool scenarioDate 10 scenarioStore).2.kv
        (keyUsageKey 1 (currentMinute scenarioDate)) = 4 ∧
    (runSeq scenarioPool scenarioDate 10 scenarioStore).2.kv
        (keyUsageKey 2 (currentMinute scenarioDate)) = 4 ∧
    incrKeys ((getAvailableKey noFail scenarioPool scenarioDate
        (runSeq scenarioPool scenarioDate 9 scenarioStore).2).2.calls.drop
        (runSeq scenarioPool scenarioDate 9 scenarioStore).2.calls.length) =
      [cursorKey, keyUsageKey 0 (currentMinute scenarioDate),
        keyUsageKey 1 (currentMinute scenarioDate),
        keyUsageKey 2 (currentMinute scenarioDate)] := by
  decide

/-- C9 counterexample: for a pool of N = 1 credential whose only counter is
already at quota, the exhausted attempt makes 2 store calls in total (one
cursor increment and one counter increment) — not 2 x N + 1 = 3: the
"conditional expiry check" is a local comparison, not a store call, and no
expiry call happens on the exhausted path since no increment returns 1. -/
theorem exhausted_store_calls_cex :
    (getAvailableKey noFail ["A"] scenarioDate satStore).1 =
      Except.error KMError.exhausted ∧
    (getAvailableKey noFail ["A"] scenarioDate satStore).2.calls.length = 2 ∧
    (2 : Nat) ≠ 2 * (["A"] : List String).length + 1 := by
  decide

/-- C9 (amended): every fault-free acquisition attempt that ends in
Exhausted makes exactly N + 1 store calls — one cursor increment plus one
counter increment per candidate — and performs no expiry call at all, since
every counter increment on the exhausted path returns a value above the
quota and in particular never 1. -/
theorem exhausted_store_calls (keys : List String) (now : JSDate) (s : StoreState)
    (h : keys ≠ [])
    (hex : (getAvailableKey noFail keys now s).1 = Except.error KMError.exhausted) :
    (getAvailableKey noFail keys now s).2.calls.length =
      s.calls.length + (keys.length + 1) ∧
    expireOps ((getAvailableKey noFail keys now s).2.calls.drop s.calls.length) = [] := by
  obtain ⟨k, hk1, hklen, hcalls, _, _, _, hres⟩ := gak_run_spec keys now s h
  rcases hres with ⟨_, hkeq, hrej⟩ | ⟨hok, _, _⟩
  · subst hkeq
    have hM : MAX_REQUESTS_PER_MINUTE = 3 := rfl
    have hfilter : (((List.range keys.length).map
        (candKey keys (currentMinute now) ((s.kv cursorKey + 1) % keys.length))).filter
        fun u => s.kv u == 0) = [] := by
      rw [List.filter_eq_nil_iff]
      intro u hu
      obtain ⟨j, hj, rfl⟩ := List.mem_map.mp hu
      have hgt := hrej j (List.mem_range.mp hj)
      simp only [beq_iff_eq]
      omega
    constructor
    · rw [hcalls, List.length_append, List.length_cons, length_examTrace, hfilter]
      simp only [List.length_nil, List.length_map, List.length_range, Nat.add_zero]
    · rw [hcalls, List.drop_left, expireOps_cons_incr, expireOps_examTrace, hfilter]
      rfl
  · rw [hok] at hex
    cases hex

/-- Witness for C9 (amended): the one-credential saturated store makes
exactly 1 + 1 + 0 store calls. -/
theorem exhausted_store_calls_witness :
    (["A"] : List String) ≠ [] ∧
    (getAvailableKey noFail ["A"] scenarioDate satStore).1 =
      Except.error KMError.exhausted ∧
    ((getAvailableKey noFail ["A"] scenarioDate satStore).2.calls.length =
        satStore.calls.length + ((["A"] : List String).length + 1) ∧
      expireOps ((getAvailableKey noFail ["A"] scenarioDate satStore).2.calls.drop
        satStore.calls.length) = []) :=
  ⟨by decide, by decide,
    exhausted_store_calls ["A"] scenarioDate satStore (by decide) (by decide)⟩

/-- C10 counterexample: an entry that is present but empty is skipped by the
loader (JavaScript truthiness of the string), although building the pool by
"skipping absent entries" only, as the claim describes, would include it:
on an environment whose sole entry is `GOOGLE_API_KEY1 = ""` the code
produces an empty pool while the claim-faithful construction produces a
pool containing the empty string. -/
theorem pool_empty_string_cex :
    KEYS emptyKeyEnv = [] ∧ KEYS_spec emptyKeyEnv = [""] ∧
      KEYS emptyKeyEnv ≠ KEYS_spec emptyKeyEnv := by
  decide

/-- C10 (amended): the pool is built by reading only the environment
entries GOOGLE_API_KEY1 through GOOGLE_API_KEY10, in index order, skipping
entries that are absent or empty: the pool depends on no other entry (so
any entry beyond index 10 is ignored), never holds more than 10
credentials, coincides with the amended-claim construction, and every
successful call returns an element of the pool it was given. -/
theorem pool_construction :
    (∀ env env' : String → Option String,
      (∀ i, 1 ≤ i → i ≤ 10 → env ("GOOGLE_API_KEY" ++ Nat.repr i) =
        env' ("GOOGLE_API_KEY" ++ Nat.repr i)) → KEYS env = KEYS env') ∧
    (∀ env : String → Option String, (KEYS env).length ≤ 10) ∧
    (∀ env : String → Option String, KEYS env = KEYS_spec_amended env) ∧
    (∀ (fail : Nat → Bool) (keys : List String) (now : JSDate) (s : StoreState)
      (r : String), (getAvailableKey fail keys now s).1 = Except.ok r → r ∈ keys) := by
  refine ⟨?_, ?_, ?_, ?_⟩
  · intro env env' hag
    refine List.filterMap_congr ?_
    intro i hi
    obtain ⟨j, hj, rfl⟩ := List.mem_range'.mp hi
    rw [hag (1 + 1 * j) (by omega) (by omega)]
  · intro env
    have hle := List.length_filterMap_le
      (fun i => match env ("GOOGLE_API_KEY" ++ Nat.repr i) with
        | some k => if k = "" then none else some k
        | none => none) (List.range' 1 10)
    rw [List.length_range'] at hle
    exact hle
  · intro env
    refine List.filterMap_congr ?_
    intro i _
    cases env ("GOOGLE_API_KEY" ++ Nat.repr i) <;> rfl
  · intro fail keys now s r hr
    rcases gak_dichotomy fail keys now s with hsu | heq
    · rw [hr] at hsu
      cases hsu
    · rw [heq] at hr
      by_cases hk0 : keys = []
      · subst hk0
        rw [show getAvailableKey noFail [] now s = (Except.error KMError.misconfigured, s)
          from rfl] at hr
        cases hr
      · obtain ⟨k, hk1, hklen, _, _, _, _, hres⟩ := gak_run_spec keys now s hk0
        rcases hres with ⟨hex, _, _⟩ | ⟨hok, _, _⟩
        · rw [hex] at hr
          cases hr
        · rw [hok] at hr
          obtain rfl := Except.ok.inj hr
          have hNpos : 0 < keys.length := List.length_pos.mpr hk0
          have hidx : ((s.kv cursorKey + 1) % keys.length + (k - 1)) % keys.length <
              keys.length := Nat.mod_lt _ hNpos
          rw [List.getD_eq_getElem keys "" hidx]
          exact List.getElem_mem hidx

/-- Witness for C10: two environments differing only at index 11 yield the
same pool, the pool is the single configured value, and a successful call
on it returns an element of it. -/
theorem pool_construction_witness :
    (∀ i, 1 ≤ i → i ≤ 10 →
      envA ("GOOGLE_API_KEY" ++ Nat.repr i) = envAplus11 ("GOOGLE_API_KEY" ++ Nat.repr i)) ∧
    KEYS envA = KEYS envAplus11 ∧
    KEYS envA = ["X"] ∧
    envAplus11 "GOOGLE_API_KEY11" = some "Y" ∧
    (getAvailableKey noFail (KEYS envA) scenarioDate (⟨fun _ => 0, []⟩ : StoreState)).1 =
      Except.ok "X" ∧
    "X" ∈ KEYS envA := by
  refine ⟨?_, ?_, by decide, by decide, by decide, ?_⟩
  · intro i h1 h10
    interval_cases i <;> decide
  · exact pool_construction.1 envA envAplus11
      (fun i h1 h10 => by interval_cases i <;> decide)
  · exact pool_construction.2.2.2 noFail (KEYS envA) scenarioDate ⟨fun _ => 0, []⟩ "X"
      (by decide)
